import Mathlib

/-!
Verification development for `scripts/fetch_curated_models.py`: a pipeline that
resolves curated and scraped model names against a remote search API, attaches
pricing data from a local table, and writes consolidated JSON output files.

The embedding below translates the Python source into Lean. Python strings are
modelled as Lean `String`s; the Python string methods used by the script
(`lower`, `strip`, `replace`, `split`, substring `in`) are re-implemented on
character lists, mirroring their documented semantics on the ASCII data the
script manipulates. Remote calls (`requests.post`) are modelled by a function
from the request payload to an outcome; an exception raised by the request or
by response parsing is the `raise` outcome, a non-200 status or a response
without usable data is the `skip` outcome. The per-request `uuid.uuid4()`
values are modelled by a stream `uuids : Nat → String` consumed in order.
Python's float comparison `len(common) >= min(...) * 0.6` is modelled exactly
as the rational comparison `6 * min ≤ 10 * common`, which agrees with the
float computation for every realistic word count.
-/

namespace Runware

/-- Python `str.lower()` (per character, as used on the script's ASCII model names). -/
def pyLower (s : String) : String :=
  String.mk (s.toList.map Char.toLower)

/-- Python `str.strip()`: drop leading and trailing whitespace. -/
def pyStrip (s : String) : String :=
  String.mk (((s.toList.dropWhile Char.isWhitespace).reverse.dropWhile Char.isWhitespace).reverse)

/-- Python's substring test `needle in hay`, on character lists. -/
def listSubstr (needle : List Char) : List Char → Bool
  | [] => needle.isEmpty
  | c :: rest => needle.isPrefixOf (c :: rest) || listSubstr needle rest

/-- Python's substring test `needle in hay` on strings. -/
def strIn (needle hay : String) : Bool :=
  listSubstr needle.toList hay.toList

/-- Worker for `str.replace(pat, rep)`: left-to-right, non-overlapping scan
(for nonempty `pat`). The fuel argument, instantiated with the list length,
only makes the recursion structural: each step consumes at least one
character, so the fuel never runs out. -/
def replaceListGo (pat rep : List Char) : Nat → List Char → List Char
  | _, [] => []
  | 0, l => l
  | fuel + 1, c :: rest =>
    if pat.isPrefixOf (c :: rest) ∧ pat ≠ [] then
      rep ++ replaceListGo pat rep fuel (List.drop (pat.length - 1) rest)
    else
      c :: replaceListGo pat rep fuel rest

/-- Python `str.replace(pat, rep)` on character lists. -/
def replaceList (pat rep l : List Char) : List Char :=
  replaceListGo pat rep l.length l

/-- Python `s.replace(pat, rep)` on strings. -/
def pyReplace (s pat rep : String) : String :=
  String.mk (replaceList pat.toList rep.toList s.toList)

/-- Python `s.split('(')[0]`: the text before the first opening parenthesis. -/
def beforeParen (s : String) : String :=
  String.mk (s.toList.takeWhile (fun c => c ≠ '('))

/-- Worker for `str.split()` (whitespace split, empty fields dropped). -/
def splitWsAux : List Char → List Char → List String
  | [], acc => if acc.isEmpty then [] else [String.mk acc.reverse]
  | c :: rest, acc =>
    if c.isWhitespace then
      if acc.isEmpty then splitWsAux rest [] else String.mk acc.reverse :: splitWsAux rest []
    else
      splitWsAux rest (c :: acc)

/-- Python `str.split()` with no argument: split on whitespace runs. -/
def pySplit (s : String) : List String :=
  splitWsAux s.toList []

/-- The normalization `model.get("name", "").lower().strip()` applied to
pricing keys and lookups. -/
def pyNorm (s : String) : String :=
  pyStrip (pyLower s)

/-! ## Pricing loader (`load_pricing_data`) and matcher (`match_pricing`) -/

/-- One price record held in the pricing lookup map; `price_usd`,
`configuration` and `discount` are opaque JSON payloads never computed with,
so each is modelled as an optional string (absent when the JSON field is
missing or null). -/
structure PriceRecord where
  price_usd : Option String
  configuration : Option String
  discount : Option String
deriving Repr, DecidableEq

/-- One entry of `pricing.json`'s `models` list, with its raw `name`. -/
structure PricingModel where
  name : String
  price_usd : Option String
  configuration : Option String
  discount : Option String
deriving Repr, DecidableEq

/-- The fields kept from a `PricingModel` when loaded into the map. -/
def toPriceRecord (m : PricingModel) : PriceRecord :=
  { price_usd := m.price_usd, configuration := m.configuration, discount := m.discount }

/-- Python dict assignment `d[k] = v`: update in place if the key exists
(keeping its position), otherwise append at the end. -/
def dictInsert (k : String) (v : PriceRecord) :
    List (String × PriceRecord) → List (String × PriceRecord)
  | [] => [(k, v)]
  | (k', v') :: rest => if k' = k then (k', v) :: rest else (k', v') :: dictInsert k v rest

/-- The loader `load_pricing_data`: build the name-keyed pricing map, normalizing each
name with `lower().strip()`; duplicate keys overwrite silently. -/
def load_pricing_data (models : List PricingModel) : List (String × PriceRecord) :=
  models.foldl (fun d m => dictInsert (pyNorm m.name) (toPriceRecord m) d) []

/-- Python dict lookup `d.get(k)` / `k in d` on the insertion-ordered map. -/
def dictLookup (d : List (String × PriceRecord)) (k : String) : Option PriceRecord :=
  (d.find? (fun p => p.1 == k)).map Prod.snd

/-- The fixed rewriting variants `match_pricing` tries on the normalized name. -/
def pricing_variations (name_lower : String) : List String :=
  [ pyReplace (pyReplace name_lower "[" "") "]" "",
    pyStrip (pyReplace name_lower "¬∑" ""),
    pyReplace name_lower "-" " ",
    pyStrip (beforeParen name_lower) ]

/-- Python `set(s.split())` as an (order-preserving) duplicate-free word list. -/
def priceWords (s : String) : List String :=
  (pySplit s).dedup

/-- Python `set(a.split()) & set(b.split())` as a duplicate-free list. -/
def priceCommon (a b : String) : List String :=
  (priceWords a).filter (fun w => w ∈ priceWords b)

/-- The 60%-shared-words test `len(common) >= min(len(a), len(b)) * 0.6`,
as the exact comparison `6 * min ≤ 10 * common`. -/
def goodOverlap (name_lower price_name : String) : Bool :=
  6 * min (priceWords name_lower).length (priceWords price_name).length ≤
    10 * (priceCommon name_lower price_name).length

/-- The final partial-match loop of `match_pricing` over the stored entries in
map order: substring containment in either direction plus the 60% word test. -/
def partialMatch (name_lower : String) : List (String × PriceRecord) → Option PriceRecord
  | [] => none
  | (price_name, price_data) :: rest =>
    if (strIn name_lower price_name || strIn price_name name_lower) &&
        goodOverlap name_lower price_name then
      some price_data
    else
      partialMatch name_lower rest

/-- The matcher `match_pricing`: direct normalized lookup, then the rewriting variants,
then the partial-match fallback. -/
def match_pricing (pricing : List (String × PriceRecord)) (model_name : String) :
    Option PriceRecord :=
  if pricing.isEmpty then none
  else
    let name_lower := pyNorm model_name
    match dictLookup pricing name_lower with
    | some r => some r
    | none =>
      match (pricing_variations name_lower).findSome? (dictLookup pricing) with
      | some r => some r
      | none => partialMatch name_lower pricing

/-! ## Model resolver (`search_model_details`) -/

/-- The body of one `modelSearch` request (`taskType` is constant). -/
structure SearchRequest where
  taskUUID : String
  search : String
  limit : Nat
  offset : Nat
deriving Repr, DecidableEq

/-- One raw result object of a search response. The fields the script reads
are optional strings (`result.get(...)`); `reprStr` stands for the serialized
form `str(result)` that the creator bonus scans. -/
structure Candidate where
  name : Option String
  air : Option String
  category : Option String
  ctype : Option String
  architecture : Option String
  tags : List String
  reprStr : String
deriving Repr, DecidableEq

/-- Outcome of one search request: an exception while requesting or parsing
(raised to the enclosing handler), a non-200 / unusable response (the loop
`continue`s), or a usable list of results. -/
inductive ApiOutcome where
  | rexc : ApiOutcome
  | skip : ApiOutcome
  | ok : List Candidate → ApiOutcome
deriving Repr, DecidableEq

/-- The result list an outcome carries (empty unless usable). -/
def resultsOf : ApiOutcome → List Candidate
  | .ok rs => rs
  | _ => []

/-- The dictionary `search_model_details` builds for the best match. -/
structure BestMatch where
  air : Option String
  name : Option String
  category : Option String
  ctype : Option String
  architecture : Option String
  tags : List String
deriving Repr, DecidableEq

/-- Projection of a result object onto the best-match dictionary. -/
def mkBest (c : Candidate) : BestMatch :=
  { air := c.air, name := c.name, category := c.category, ctype := c.ctype,
    architecture := c.architecture, tags := c.tags }

/-- Distinct words of `s.replace('-', ' ').split()`. -/
def hyphenWords (s : String) : List String :=
  (pySplit (pyReplace s "-" " ")).dedup

/-- Shared words (as a set) used for the partial word-match score. -/
def commonWordsHyphen (a b : String) : List String :=
  (hyphenWords a).filter (fun w => w ∈ hyphenWords b)

/-- The base score of one result: 100 on exact (lowercased) match with the
original name or the current search term, 80 on substring containment between
result name and search term, else 20 per shared word with the original name. -/
def baseScore (original_lower search_lower result_name : String) : Nat :=
  if result_name = original_lower ∨ result_name = search_lower then 100
  else if strIn search_lower result_name ∨ strIn result_name search_lower then 80
  else 20 * (commonWordsHyphen original_lower result_name).length

/-- Full score of one result: the base score, plus 10 when a (truthy) creator
hint is given, the base score is positive, and the lowercased hint occurs in
the lowercased serialized result. -/
def fullScore (creator : Option String) (model_name search_term : String) (c : Candidate) : Nat :=
  let result_name := pyLower (c.name.getD "")
  let base := baseScore (pyLower model_name) (pyLower search_term) result_name
  match creator with
  | some cr =>
    if cr ≠ "" ∧ 0 < base ∧ strIn (pyLower cr) (pyLower c.reprStr) then base + 10 else base
  | none => base

/-- The four search variations tried for a model name. -/
def search_variations (model_name : String) : List String :=
  [ model_name,
    pyReplace (pyReplace model_name "[" "") "]" "",
    pyReplace model_name "‚Äë" "-",
    pyStrip (beforeParen model_name) ]

/-- The dedup-preserving-order loop that builds `search_terms`, dropping
falsy (empty) terms. -/
def dedupTerms : List String → List String → List String
  | [], acc => acc
  | t :: rest, acc =>
    if t = "" ∨ t ∈ acc then dedupTerms rest acc else dedupTerms rest (acc ++ [t])

/-- The ordered, de-duplicated search terms for a model name. -/
def search_terms (model_name : String) : List String :=
  dedupTerms (search_variations model_name) []

/-- The inner result-scoring loop. `Sum.inl r` models the early
`return best_match` on a score ≥ 100; `Sum.inr (bs, bm)` is the updated
`(best_score, best_match)` state when the loop runs to completion. -/
def scanResults (creator : Option String) (model_name search_term : String) :
    List Candidate → Nat → Option BestMatch → Sum (Option BestMatch) (Nat × Option BestMatch)
  | [], bs, bm => Sum.inr (bs, bm)
  | c :: rest, bs, bm =>
    let score := fullScore creator model_name search_term c
    let bs' := if bs < score then score else bs
    let bm' := if bs < score then some (mkBest c) else bm
    if 100 ≤ score then Sum.inl bm'
    else scanResults creator model_name search_term rest bs' bm'

/-- The outer loop of `search_model_details` over the search terms, threading
the uuid counter; returns the function's result and the next uuid index.
A `rexc` outcome is the exception caught by the enclosing `try`, making the
whole call return `None`. -/
def searchLoop (api : SearchRequest → ApiOutcome) (uuids : Nat → String)
    (creator : Option String) (model_name : String) (limit : Nat) :
    List String → Nat → Nat → Option BestMatch → Option BestMatch × Nat
  | [], n, bs, bm => (if bm.isSome ∧ 40 ≤ bs then bm else none, n)
  | term :: rest, n, bs, bm =>
    match api { taskUUID := uuids n, search := term, limit := limit, offset := 0 } with
    | .rexc => (none, n + 1)
    | .skip => searchLoop api uuids creator model_name limit rest (n + 1) bs bm
    | .ok results =>
      match scanResults creator model_name term results bs bm with
      | .inl r => (r, n + 1)
      | .inr (bs', bm') => searchLoop api uuids creator model_name limit rest (n + 1) bs' bm'

/-- The resolver `search_model_details(model_name, creator, limit)` starting at uuid
index `n0`. -/
def search_model_details (api : SearchRequest → ApiOutcome) (uuids : Nat → String)
    (model_name : String) (creator : Option String) (limit : Nat) (n0 : Nat) :
    Option BestMatch × Nat :=
  searchLoop api uuids creator model_name limit (search_terms model_name) n0 0 none

/-- Whether the execution of `search_model_details` actually reaches a
request/parse exception (mirrors `searchLoop`'s control flow). -/
def reachesExc (api : SearchRequest → ApiOutcome) (uuids : Nat → String)
    (creator : Option String) (model_name : String) (limit : Nat) :
    List String → Nat → Nat → Option BestMatch → Bool
  | [], _, _, _ => false
  | term :: rest, n, bs, bm =>
    match api { taskUUID := uuids n, search := term, limit := limit, offset := 0 } with
    | .rexc => true
    | .skip => reachesExc api uuids creator model_name limit rest (n + 1) bs bm
    | .ok results =>
      match scanResults creator model_name term results bs bm with
      | .inl _ => false
      | .inr (bs', bm') => reachesExc api uuids creator model_name limit rest (n + 1) bs' bm'

/-! ## Enrichment (`enrich_models_by_name`, `enrich_models_by_id`) and output -/

/-- One hand-curated entry of `POPULAR_MODELS`. -/
structure CuratedEntry where
  name : String
  creator : Option String
deriving Repr, DecidableEq

/-- One scraped entry handed to `enrich_models_by_id` (its placeholder
`air: None` is overwritten before any output). -/
structure ScrapedEntry where
  model_id : String
  name : String
deriving Repr, DecidableEq

/-- Python truthiness of an optional string field. -/
def strTruthy : Option String → Bool
  | none => false
  | some s => s != ""

/-- The price fields attached to an enriched record: `price_usd` is copied
unconditionally; `price_configuration` and `price_discount` only when truthy. -/
structure PriceApplied where
  price_usd : Option String
  price_configuration : Option String
  price_discount : Option String
deriving Repr, DecidableEq

/-- How a matched `PriceRecord` is spliced into an output record. -/
def applyPricing (p : PriceRecord) : PriceApplied :=
  { price_usd := p.price_usd,
    price_configuration := if strTruthy p.configuration then p.configuration else none,
    price_discount := if strTruthy p.discount then p.discount else none }

/-- An output record of the curated (`enrich_models_by_name`) path. -/
structure CuratedRecord where
  name : String
  creator : Option String
  air : Option String
  category : Option String
  ctype : Option String
  architecture : Option String
  tags : List String
  pricing : Option PriceApplied
deriving Repr, DecidableEq

/-- The loop of `enrich_models_by_name`, threading the uuid counter. An entry
whose search returns `None` is skipped (only logged). -/
def enrichByNameGo (api : SearchRequest → ApiOutcome) (uuids : Nat → String)
    (pricing : List (String × PriceRecord)) : List CuratedEntry → Nat → List CuratedRecord
  | [], _ => []
  | m :: rest, n =>
    match search_model_details api uuids m.name m.creator 20 n with
    | (some d, n') =>
      { name := m.name, creator := m.creator, air := d.air, category := d.category,
        ctype := d.ctype, architecture := d.architecture, tags := d.tags,
        pricing := (match_pricing pricing m.name).map applyPricing } ::
        enrichByNameGo api uuids pricing rest n'
    | (none, n') => enrichByNameGo api uuids pricing rest n'

/-- The function `enrich_models_by_name(models_list, ...)`. -/
def enrich_models_by_name (api : SearchRequest → ApiOutcome) (uuids : Nat → String)
    (pricing : List (String × PriceRecord)) (models_list : List CuratedEntry) :
    List CuratedRecord :=
  enrichByNameGo api uuids pricing models_list 0

/-- Python's `a or b` for an optional string `a` and a string `b`. -/
def pyOrStr (a : Option String) (b : String) : String :=
  match a with
  | some s => if s = "" then b else s
  | none => b

/-- The resolution step of `enrich_models_by_id` for one scraped entry:
search by the scraped display name when it is truthy, falling back to the raw
model id when that yields nothing. -/
def resolveScraped (api : SearchRequest → ApiOutcome) (uuids : Nat → String)
    (e : ScrapedEntry) (n : Nat) : Option BestMatch × Nat :=
  match (if e.name ≠ "" then search_model_details api uuids e.name none 20 n else (none, n)) with
  | (some d, n1) => (some d, n1)
  | (none, n1) => search_model_details api uuids e.model_id none 20 n1

/-- An output record of the scraped (`enrich_models_by_id`) path. -/
structure ScrapedRecord where
  model_id : String
  name : String
  air : Option String
  category : Option String
  ctype : Option String
  architecture : Option String
  tags : List String
  pricing : Option PriceApplied
deriving Repr, DecidableEq

/-- The loop of `enrich_models_by_id`: the record's `name` and the pricing
lookup both use `api_data.get("name") or scraped_name`. -/
def enrichByIdGo (api : SearchRequest → ApiOutcome) (uuids : Nat → String)
    (pricing : List (String × PriceRecord)) : List ScrapedEntry → Nat → List ScrapedRecord
  | [], _ => []
  | m :: rest, n =>
    match resolveScraped api uuids m n with
    | (some d, n') =>
      { model_id := m.model_id, name := pyOrStr d.name m.name, air := d.air,
        category := d.category, ctype := d.ctype, architecture := d.architecture,
        tags := d.tags,
        pricing := (match_pricing pricing (pyOrStr d.name m.name)).map applyPricing } ::
        enrichByIdGo api uuids pricing rest n'
    | (none, n') => enrichByIdGo api uuids pricing rest n'

/-- The function `enrich_models_by_id(models_list, ...)`. -/
def enrich_models_by_id (api : SearchRequest → ApiOutcome) (uuids : Nat → String)
    (pricing : List (String × PriceRecord)) (models_list : List ScrapedEntry) :
    List ScrapedRecord :=
  enrichByIdGo api uuids pricing models_list 0

/-- The hardcoded `POPULAR_MODELS` list. -/
def POPULAR_MODELS : List CuratedEntry :=
  [ ⟨"ImagineArt 1.5 Pro", some "ImagineArt"⟩,
    ⟨"Qwen-Image-2512", some "Alibaba"⟩,
    ⟨"Seedream 4.5", some "ByteDance"⟩,
    ⟨"FLUX.2 [klein] 9B", some "Black Forest Labs"⟩,
    ⟨"FLUX.2 [klein] 4B", some "Black Forest Labs"⟩,
    ⟨"Kling IMAGE O1", some "Kling AI"⟩,
    ⟨"Nano Banana Pro", some "Google"⟩,
    ⟨"Z-Image-Turbo", some "Alibaba"⟩,
    ⟨"Qwen-Image-Edit-Plus", some "Alibaba"⟩,
    ⟨"FLUX.2 [dev]", some "Black Forest Labs"⟩,
    ⟨"Qwen-Image-Edit-2511", some "Alibaba"⟩,
    ⟨"Object Eraser", none⟩,
    ⟨"Riverflow 2.0 Pro", some "Sourceful"⟩,
    ⟨"GPT Image 1.5", some "OpenAI"⟩,
    ⟨"Wan2.6 Image", some "Alibaba"⟩,
    ⟨"Midjourney V7", some "Midjourney"⟩,
    ⟨"ImagineArt 1.5", some "ImagineArt"⟩,
    ⟨"FLUX.2 [max]", some "Black Forest Labs"⟩,
    ⟨"Imagen 4 Preview", some "Google"⟩,
    ⟨"Imagen 4 Fast", some "Google"⟩,
    ⟨"Riverflow 2 Preview Max", some "Sourceful"⟩,
    ⟨"Riverflow 2 Preview Standard", some "Sourceful"⟩,
    ⟨"Midjourney V6", some "Midjourney"⟩,
    ⟨"Bria FIBO Edit", some "Bria"⟩ ]

/-- A scraped collection descriptor from `SCRAPE_COLLECTIONS`. -/
structure Collection where
  name : String
  url : String
  output_file : String
deriving Repr, DecidableEq

/-- The single configured scraped collection. -/
def SCRAPE_COLLECTIONS : List Collection :=
  [ ⟨"Best for Text on Images", "https://runware.ai/collections/best-for-text-on-images",
      "best_models.json"⟩ ]

/-- The JSON document written for one list (generic in the record type). -/
structure OutputFile (α : Type) where
  source : String
  collection : String
  date_extracted : String
  total_models : Nat
  models : List α
deriving Repr, DecidableEq

/-- The `popular_models.json` document built by `__main__`. -/
def popular_output (api : SearchRequest → ApiOutcome) (uuids : Nat → String)
    (pricing : List (String × PriceRecord)) (today : String) : OutputFile CuratedRecord :=
  let popular_enriched := enrich_models_by_name api uuids pricing POPULAR_MODELS
  { source := "https://runware.ai/models", collection := "Popular Models",
    date_extracted := today, total_models := popular_enriched.length,
    models := popular_enriched }

/-- The per-collection document built by `__main__` from the scraped entries
(the collection is skipped, and no file written, when the scrape is empty). -/
def collection_output (api : SearchRequest → ApiOutcome) (uuids : Nat → String)
    (pricing : List (String × PriceRecord)) (col : Collection)
    (scraped : List ScrapedEntry) (today : String) : OutputFile ScrapedRecord :=
  let enriched := enrich_models_by_id api uuids pricing scraped
  { source := col.url, collection := col.name, date_extracted := today,
    total_models := enriched.length, models := enriched }

/-! ## Normalization lemmas: `lower().strip()` is idempotent -/

theorem charToLower_toNat_of_upper {c : Char} (h : c.toNat ≥ 65 ∧ c.toNat ≤ 90) :
    (Char.toLower c).toNat = c.toNat + 32 := by
  have hv : (c.toNat + 32).isValidChar := Or.inl (by omega)
  unfold Char.toLower
  rw [if_pos h, Char.ofNat, dif_pos hv]
  rfl

theorem charToLower_eq_self {c : Char} (h : ¬(c.toNat ≥ 65 ∧ c.toNat ≤ 90)) :
    Char.toLower c = c := by
  unfold Char.toLower
  rw [if_neg h]

theorem char_toNat_inj {c d : Char} (h : c.toNat = d.toNat) : c = d := by
  have h1 := Char.ofNat_toNat c
  have h2 := Char.ofNat_toNat d
  rw [← h1, ← h2, h]

theorem charToLower_idem (c : Char) : Char.toLower (Char.toLower c) = Char.toLower c := by
  by_cases h : c.toNat ≥ 65 ∧ c.toNat ≤ 90
  · have h1 := charToLower_toNat_of_upper h
    have h2 : ¬((Char.toLower c).toNat ≥ 65 ∧ (Char.toLower c).toNat ≤ 90) := by
      rw [h1]
      omega
    exact charToLower_eq_self h2
  · rw [charToLower_eq_self h, charToLower_eq_self h]

theorem isWhitespace_iff_toNat (c : Char) :
    c.isWhitespace = true ↔ (c.toNat = 32 ∨ c.toNat = 9 ∨ c.toNat = 13 ∨ c.toNat = 10) := by
  unfold Char.isWhitespace
  simp only [Bool.or_eq_true, decide_eq_true_eq]
  constructor
  · rintro (((rfl | rfl) | rfl) | rfl) <;> simp [Char.toNat]
  · rintro (h | h | h | h)
    · exact Or.inl (Or.inl (Or.inl (char_toNat_inj (by rw [h]; rfl))))
    · exact Or.inl (Or.inl (Or.inr (char_toNat_inj (by rw [h]; rfl))))
    · exact Or.inl (Or.inr (char_toNat_inj (by rw [h]; rfl)))
    · exact Or.inr (char_toNat_inj (by rw [h]; rfl))

theorem charToLower_isWhitespace (c : Char) :
    (Char.toLower c).isWhitespace = c.isWhitespace := by
  by_cases h : c.toNat ≥ 65 ∧ c.toNat ≤ 90
  · have h1 := charToLower_toNat_of_upper h
    have hA : (Char.toLower c).isWhitespace = false := by
      cases hb : (Char.toLower c).isWhitespace
      · rfl
      · exfalso
        have hn := (isWhitespace_iff_toNat _).mp hb
        rw [h1] at hn
        omega
    have hB : c.isWhitespace = false := by
      cases hb : c.isWhitespace
      · rfl
      · exfalso
        have hn := (isWhitespace_iff_toNat _).mp hb
        omega
    rw [hA, hB]
  · rw [charToLower_eq_self h]

theorem string_ext {s t : String} (h : s.toList = t.toList) : s = t := by
  cases s
  cases t
  exact congrArg String.mk (by simpa [String.toList] using h)

theorem pyLower_toList (s : String) : (pyLower s).toList = s.toList.map Char.toLower := rfl

theorem pyStrip_toList (s : String) :
    (pyStrip s).toList =
      List.rdropWhile Char.isWhitespace (List.dropWhile Char.isWhitespace s.toList) := rfl

theorem pyLower_idem (s : String) : pyLower (pyLower s) = pyLower s := by
  apply string_ext
  simp only [pyLower_toList, List.map_map]
  have h : Char.toLower ∘ Char.toLower = Char.toLower := funext charToLower_idem
  rw [h]

theorem pyLower_pyStrip_comm (s : String) : pyLower (pyStrip s) = pyStrip (pyLower s) := by
  apply string_ext
  have hws : Char.isWhitespace ∘ Char.toLower = Char.isWhitespace :=
    funext charToLower_isWhitespace
  show List.map Char.toLower (((s.toList.dropWhile Char.isWhitespace).reverse.dropWhile
      Char.isWhitespace).reverse) =
    (((s.toList.map Char.toLower).dropWhile Char.isWhitespace).reverse.dropWhile
      Char.isWhitespace).reverse
  simp only [List.dropWhile_map, hws, ← List.map_reverse]

theorem dropWhile_eq_self_of_prefix {p : Char → Bool} {r m : List Char}
    (hpre : r <+: m) (hm : List.dropWhile p m = m) : List.dropWhile p r = r := by
  rw [List.dropWhile_eq_self_iff] at hm ⊢
  intro hl
  obtain ⟨t, rfl⟩ := hpre
  have hlen : 0 < (r ++ t).length := by
    rw [List.length_append]
    omega
  have hz := hm hlen
  rwa [List.get_append _ _] at hz

theorem pyStrip_idem (s : String) : pyStrip (pyStrip s) = pyStrip s := by
  apply string_ext
  show List.rdropWhile Char.isWhitespace (List.dropWhile Char.isWhitespace
      (List.rdropWhile Char.isWhitespace (List.dropWhile Char.isWhitespace s.toList))) =
    List.rdropWhile Char.isWhitespace (List.dropWhile Char.isWhitespace s.toList)
  have hm : List.dropWhile Char.isWhitespace
      (List.dropWhile Char.isWhitespace s.toList) =
      List.dropWhile Char.isWhitespace s.toList :=
    List.dropWhile_idempotent _ _
  have hpre := List.rdropWhile_prefix Char.isWhitespace
    (List.dropWhile Char.isWhitespace s.toList)
  have h1 := dropWhile_eq_self_of_prefix hpre hm
  rw [h1, List.rdropWhile_idempotent]

theorem pyNorm_idem (s : String) : pyNorm (pyNorm s) = pyNorm s := by
  unfold pyNorm
  rw [pyLower_pyStrip_comm (pyLower s), pyLower_idem, pyStrip_idem]

/-! ## Dictionary lemmas for the pricing map -/

theorem dictInsert_ne_nil (k : String) (v : PriceRecord) (d : List (String × PriceRecord)) :
    dictInsert k v d ≠ [] := by
  cases d with
  | nil => simp [dictInsert]
  | cons p rest =>
    obtain ⟨k', v'⟩ := p
    simp only [dictInsert]
    split <;> simp

theorem foldl_dictInsert_ne_nil (L : List PricingModel) :
    ∀ d : List (String × PriceRecord), d ≠ [] →
      L.foldl (fun d m => dictInsert (pyNorm m.name) (toPriceRecord m) d) d ≠ [] := by
  induction L with
  | nil => intro d hd; simpa using hd
  | cons m rest ih =>
    intro d _
    simp only [List.foldl_cons]
    exact ih _ (dictInsert_ne_nil _ _ _)

theorem dictLookup_insert_self (k : String) (v : PriceRecord)
    (d : List (String × PriceRecord)) : dictLookup (dictInsert k v d) k = some v := by
  induction d with
  | nil => simp [dictInsert, dictLookup]
  | cons p rest ih =>
    obtain ⟨k', v'⟩ := p
    simp only [dictInsert]
    by_cases h : k' = k
    · simp [dictLookup, h]
    · simp only [if_neg h]
      simp only [dictLookup, List.find?_cons] at ih ⊢
      have hne : (k' == k) = false := by simpa using h
      simp [hne, ih]

theorem dictLookup_insert_ne (k k' : String) (v : PriceRecord)
    (d : List (String × PriceRecord)) (hne : k' ≠ k) :
    dictLookup (dictInsert k' v d) k = dictLookup d k := by
  induction d with
  | nil => simp [dictInsert, dictLookup, List.find?_cons, hne]
  | cons p rest ih =>
    obtain ⟨k₀, v₀⟩ := p
    simp only [dictInsert]
    by_cases h : k₀ = k'
    · subst h
      simp [dictLookup, List.find?_cons, hne]
    · simp only [if_neg h]
      simp only [dictLookup, List.find?_cons] at ih ⊢
      cases hk : (k₀ == k) <;> simp [hk, ih]

theorem dictLookup_foldl_of_no_match (post : List PricingModel) (k : String)
    (hpost : ∀ m' ∈ post, pyNorm m'.name ≠ k) :
    ∀ d : List (String × PriceRecord),
      dictLookup (post.foldl (fun d m => dictInsert (pyNorm m.name) (toPriceRecord m) d) d) k =
        dictLookup d k := by
  induction post with
  | nil => intro d; rfl
  | cons m rest ih =>
    intro d
    simp only [List.foldl_cons]
    have h1 : pyNorm m.name ≠ k := hpost m (List.mem_cons_self m rest)
    have h2 : ∀ m' ∈ rest, pyNorm m'.name ≠ k := fun m' hm' =>
      hpost m' (List.mem_cons_of_mem m hm')
    rw [ih h2, dictLookup_insert_ne _ _ _ _ h1]

/-! ## Lemmas on the partial-match fallback -/

theorem partialMatch_some (name_lower : String) (pricing : List (String × PriceRecord))
    (r : PriceRecord) (h : partialMatch name_lower pricing = some r) :
    ∃ p ∈ pricing, r = p.2 ∧
      (strIn name_lower p.1 || strIn p.1 name_lower) = true ∧
      goodOverlap name_lower p.1 = true := by
  induction pricing with
  | nil => simp [partialMatch] at h
  | cons p rest ih =>
    obtain ⟨price_name, price_data⟩ := p
    simp only [partialMatch] at h
    split at h
    · rename_i hcond
      have heq : price_data = r := by simpa using h
      simp only [Bool.and_eq_true] at hcond
      exact ⟨(price_name, price_data), List.mem_cons_self _ _, heq.symm, hcond.1, hcond.2⟩
    · obtain ⟨q, hq, hrest⟩ := ih h
      exact ⟨q, List.mem_cons_of_mem _ hq, hrest⟩

theorem partialMatch_none (name_lower : String) (pricing : List (String × PriceRecord))
    (h : ∀ p ∈ pricing,
      ¬((strIn name_lower p.1 || strIn p.1 name_lower) = true ∧
        goodOverlap name_lower p.1 = true)) :
    partialMatch name_lower pricing = none := by
  induction pricing with
  | nil => rfl
  | cons p rest ih =>
    obtain ⟨price_name, price_data⟩ := p
    have h1 := h (price_name, price_data) (List.mem_cons_self _ _)
    have hrest : partialMatch name_lower rest = none :=
      ih (fun q hq => h q (List.mem_cons_of_mem _ hq))
    have hc : ((strIn name_lower price_name || strIn price_name name_lower) &&
        goodOverlap name_lower price_name) = false := by
      cases hx : ((strIn name_lower price_name || strIn price_name name_lower) &&
          goodOverlap name_lower price_name)
      · rfl
      · simp only [Bool.and_eq_true] at hx
        exact absurd hx h1
    simp only [partialMatch, hc]
    simpa using hrest

theorem match_pricing_direct (pricing : List (String × PriceRecord)) (model_name : String)
    (r : PriceRecord) (hne : pricing ≠ [])
    (h : dictLookup pricing (pyNorm model_name) = some r) :
    match_pricing pricing model_name = some r := by
  have hemp : pricing.isEmpty = false := by
    cases pricing
    · exact absurd rfl hne
    · rfl
  simp only [match_pricing, hemp, Bool.false_eq_true, if_false, h]

theorem match_pricing_fallback_eq (pricing : List (String × PriceRecord)) (model_name : String)
    (hdirect : dictLookup pricing (pyNorm model_name) = none)
    (hvar : (pricing_variations (pyNorm model_name)).findSome? (dictLookup pricing) = none) :
    match_pricing pricing model_name = partialMatch (pyNorm model_name) pricing := by
  cases hpe : pricing.isEmpty
  · simp only [match_pricing, hpe, Bool.false_eq_true, if_false, hdirect, hvar]
  · have hnil : pricing = [] := List.isEmpty_iff.mp hpe
    subst hnil
    simp [match_pricing, partialMatch]

/-- C5: when `match_pricing` falls through the exact lookup and the rewriting
variants, it accepts a stored record only if the normalized query name and the
stored key contain one another as substrings in at least one direction and the
set of shared whitespace-split words is at least 60% of the smaller name's
word count; when no stored key passes this test it returns nothing. -/
theorem C5_partial_match_fallback (pricing : List (String × PriceRecord)) (model_name : String)
    (hdirect : dictLookup pricing (pyNorm model_name) = none)
    (hvar : (pricing_variations (pyNorm model_name)).findSome? (dictLookup pricing) = none) :
    (∀ r, match_pricing pricing model_name = some r →
      ∃ p ∈ pricing, r = p.2 ∧
        (strIn (pyNorm model_name) p.1 || strIn p.1 (pyNorm model_name)) = true ∧
        goodOverlap (pyNorm model_name) p.1 = true) ∧
    ((∀ p ∈ pricing,
        ¬((strIn (pyNorm model_name) p.1 || strIn p.1 (pyNorm model_name)) = true ∧
          goodOverlap (pyNorm model_name) p.1 = true)) →
      match_pricing pricing model_name = none) := by
  rw [match_pricing_fallback_eq pricing model_name hdirect hvar]
  constructor
  · intro r h
    exact partialMatch_some _ _ _ h
  · intro h
    exact partialMatch_none _ _ h

/-- Pricing table used as concrete input for the fallback witness. -/
def pricingC5 : List (String × PriceRecord) :=
  [("flux dev pro", ⟨some "1", none, none⟩)]

/-- Witness for C5: at a concrete table and query that fall through to the
fallback stage, the accepted record satisfies the containment and 60% tests. -/
theorem C5_partial_match_fallback_witness :
    ∃ p ∈ pricingC5, (⟨some "1", none, none⟩ : PriceRecord) = p.2 ∧
      (strIn (pyNorm "flux dev") p.1 || strIn p.1 (pyNorm "flux dev")) = true ∧
      goodOverlap (pyNorm "flux dev") p.1 = true :=
  (C5_partial_match_fallback pricingC5 "flux dev" (by decide) (by decide)).1
    ⟨some "1", none, none⟩ (by decide)

/-- C6: for every entry of the loaded price table, looking its stored
(normalized) name up through `match_pricing` returns that entry's record,
where the surviving record for a normalized name is the last table entry
with that name (duplicates overwrite earlier ones silently). -/
theorem C6_load_lookup_roundtrip (pre post : List PricingModel) (m : PricingModel)
    (hpost : ∀ m' ∈ post, pyNorm m'.name ≠ pyNorm m.name) :
    match_pricing (load_pricing_data (pre ++ m :: post)) (pyNorm m.name) =
      some (toPriceRecord m) := by
  unfold load_pricing_data
  rw [List.foldl_append, List.foldl_cons]
  apply match_pricing_direct
  · exact foldl_dictInsert_ne_nil post _ (dictInsert_ne_nil _ _ _)
  · rw [pyNorm_idem, dictLookup_foldl_of_no_match post (pyNorm m.name) hpost,
      dictLookup_insert_self]

/-- Witness for C6: round trip on a concrete two-entry table with a duplicate
normalized name, returning the later duplicate's record. -/
theorem C6_load_lookup_roundtrip_witness :
    match_pricing
      (load_pricing_data
        [⟨"FLUX Dev", some "0.1", none, none⟩, ⟨" flux dev ", some "0.2", none, none⟩])
      (pyNorm " flux dev ") = some ⟨some "0.2", none, none⟩ :=
  C6_load_lookup_roundtrip [⟨"FLUX Dev", some "0.1", none, none⟩] []
    ⟨" flux dev ", some "0.2", none, none⟩ (by simp)

/-! ## Lemmas on the result-scoring loop -/

theorem scanResults_inl_exists (creator : Option String) (model_name search_term : String) :
    ∀ (cands : List Candidate) (bs : Nat) (bm : Option BestMatch) (r : Option BestMatch),
      bs < 100 →
      scanResults creator model_name search_term cands bs bm = Sum.inl r →
      ∃ c ∈ cands, 100 ≤ fullScore creator model_name search_term c ∧ r = some (mkBest c) := by
  intro cands
  induction cands with
  | nil =>
    intro bs bm r _ h
    simp [scanResults] at h
  | cons c rest ih =>
    intro bs bm r hbs h
    simp only [scanResults] at h
    by_cases h100 : 100 ≤ fullScore creator model_name search_term c
    · rw [if_pos h100] at h
      have hlt : bs < fullScore creator model_name search_term c := lt_of_lt_of_le hbs h100
      rw [if_pos hlt] at h
      have hr : some (mkBest c) = r := by simpa using h
      exact ⟨c, List.mem_cons_self _ _, h100, hr.symm⟩
    · rw [if_neg h100] at h
      have hsc : fullScore creator model_name search_term c < 100 := Nat.lt_of_not_le h100
      have hbs' : (if bs < fullScore creator model_name search_term c then
          fullScore creator model_name search_term c else bs) < 100 := by
        split <;> omega
      obtain ⟨c', hc', hs', hr⟩ := ih _ _ _ hbs' h
      exact ⟨c', List.mem_cons_of_mem _ hc', hs', hr⟩

theorem scanResults_inr_spec (creator : Option String) (model_name search_term : String) :
    ∀ (cands : List Candidate) (bs : Nat) (bm : Option BestMatch) (bs' : Nat)
      (bm' : Option BestMatch),
      bs < 100 →
      scanResults creator model_name search_term cands bs bm = Sum.inr (bs', bm') →
      bs ≤ bs' ∧ bs' < 100 ∧
      (∀ c ∈ cands, fullScore creator model_name search_term c ≤ bs') ∧
      ((bs' = bs ∧ bm' = bm) ∨
        ∃ c ∈ cands, bm' = some (mkBest c) ∧
          fullScore creator model_name search_term c = bs') := by
  intro cands
  induction cands with
  | nil =>
    intro bs bm bs' bm' hbs h
    simp only [scanResults, Sum.inr.injEq, Prod.mk.injEq] at h
    obtain ⟨h1, h2⟩ := h
    subst h1
    subst h2
    exact ⟨Nat.le_refl _, hbs, by simp, Or.inl ⟨rfl, rfl⟩⟩
  | cons c rest ih =>
    intro bs bm bs' bm' hbs h
    simp only [scanResults] at h
    by_cases h100 : 100 ≤ fullScore creator model_name search_term c
    · rw [if_pos h100] at h
      simp at h
    · rw [if_neg h100] at h
      have hsc : fullScore creator model_name search_term c < 100 := Nat.lt_of_not_le h100
      have hbs1 : (if bs < fullScore creator model_name search_term c then
          fullScore creator model_name search_term c else bs) < 100 := by
        split <;> omega
      obtain ⟨h1, h2, h3, h4⟩ := ih _ _ _ _ hbs1 h
      refine ⟨?_, h2, ?_, ?_⟩
      · refine Nat.le_trans ?_ h1
        split <;> omega
      · intro c' hc'
        rcases List.mem_cons.mp hc' with rfl | hc'
        · refine Nat.le_trans ?_ h1
          split <;> omega
        · exact h3 c' hc'
      · rcases h4 with ⟨hbs'', hbm''⟩ | ⟨c', hc', hbm'', hsc'⟩
        · by_cases hlt : bs < fullScore creator model_name search_term c
          · rw [if_pos hlt] at hbs''
            rw [if_pos hlt] at hbm''
            exact Or.inr ⟨c, List.mem_cons_self _ _, hbm'', hbs''.symm⟩
          · rw [if_neg hlt] at hbs''
            rw [if_neg hlt] at hbm''
            exact Or.inl ⟨hbs'', hbm''⟩
        · exact Or.inr ⟨c', List.mem_cons_of_mem _ hc', hbm'', hsc'⟩

theorem scanResults_shortcircuit (creator : Option String) (model_name search_term : String) :
    ∀ (cs1 : List Candidate) (c : Candidate) (cs2 : List Candidate) (bs : Nat)
      (bm : Option BestMatch),
      bs < 100 →
      (∀ c' ∈ cs1, fullScore creator model_name search_term c' < 100) →
      100 ≤ fullScore creator model_name search_term c →
      scanResults creator model_name search_term (cs1 ++ c :: cs2) bs bm =
        Sum.inl (some (mkBest c)) := by
  intro cs1
  induction cs1 with
  | nil =>
    intro c cs2 bs bm hbs _ h100
    have hlt : bs < fullScore creator model_name search_term c := lt_of_lt_of_le hbs h100
    simp only [List.nil_append, scanResults, if_pos hlt, if_pos h100]
  | cons c' cs1' ih =>
    intro c cs2 bs bm hbs hfirst h100
    have hc' : fullScore creator model_name search_term c' < 100 :=
      hfirst c' (List.mem_cons_self _ _)
    have hrest : ∀ x ∈ cs1', fullScore creator model_name search_term x < 100 :=
      fun x hx => hfirst x (List.mem_cons_of_mem _ hx)
    have hbs1 : (if bs < fullScore creator model_name search_term c' then
        fullScore creator model_name search_term c' else bs) < 100 := by
      split <;> omega
    simp only [List.cons_append, scanResults, if_neg (Nat.not_le_of_lt hc')]
    exact ih c cs2 _ _ hbs1 hrest h100

/-! ## Lemmas on the search-term loop -/

theorem searchLoop_some_spec (api : SearchRequest → ApiOutcome) (uuids : Nat → String)
    (creator : Option String) (model_name : String) (limit : Nat) :
    ∀ (terms : List String) (n bs : Nat) (bm : Option BestMatch) (m : BestMatch),
      bs < 100 → (bm = none → bs = 0) →
      (searchLoop api uuids creator model_name limit terms n bs bm).1 = some m →
      (bm = some m ∧ 40 ≤ bs) ∨
        ∃ p ∈ List.enumFrom n terms,
          ∃ c ∈ resultsOf
            (api { taskUUID := uuids p.1, search := p.2, limit := limit, offset := 0 }),
            m = mkBest c ∧ 40 ≤ fullScore creator model_name p.2 c := by
  intro terms
  induction terms with
  | nil =>
    intro n bs bm m _ _ h
    simp only [searchLoop] at h
    split at h
    · rename_i hcond
      exact Or.inl ⟨h, hcond.2⟩
    · simp at h
  | cons t rest ih =>
    intro n bs bm m hbs h0 h
    cases hapi : api { taskUUID := uuids n, search := t, limit := limit, offset := 0 } with
    | rexc =>
      simp only [searchLoop, hapi] at h
      simp at h
    | skip =>
      simp only [searchLoop, hapi] at h
      rcases ih (n + 1) bs bm m hbs h0 h with hl | ⟨p, hp, hcc⟩
      · exact Or.inl hl
      · exact Or.inr ⟨p, by rw [List.enumFrom_cons]; exact List.mem_cons_of_mem _ hp, hcc⟩
    | ok results =>
      simp only [searchLoop, hapi] at h
      cases hscan : scanResults creator model_name t results bs bm with
      | inl r =>
        rw [hscan] at h
        obtain ⟨c, hc, hs, hr⟩ :=
          scanResults_inl_exists creator model_name t results bs bm r hbs hscan
        have hm : m = mkBest c := by
          rw [hr] at h
          simpa using h.symm
        refine Or.inr ⟨(n, t), by rw [List.enumFrom_cons]; exact List.mem_cons_self _ _,
          c, ?_, hm, show 40 ≤ fullScore creator model_name t c by omega⟩
        rw [hapi]
        exact hc
      | inr pair =>
        obtain ⟨bs', bm'⟩ := pair
        rw [hscan] at h
        obtain ⟨h1, h2, h3, h4⟩ :=
          scanResults_inr_spec creator model_name t results bs bm bs' bm' hbs hscan
        have h0' : bm' = none → bs' = 0 := by
          rcases h4 with ⟨hb, hm⟩ | ⟨c, _, hm, _⟩
          · intro hn
            rw [hm] at hn
            rw [hb]
            exact h0 hn
          · intro hn
            rw [hm] at hn
            simp at hn
        rcases ih (n + 1) bs' bm' m h2 h0' h with ⟨hm, hge⟩ | ⟨p, hp, hcc⟩
        · rcases h4 with ⟨hb, hmm⟩ | ⟨c, hc, hmm, hs⟩
          · rw [hmm] at hm
            rw [hb] at hge
            exact Or.inl ⟨hm, hge⟩
          · rw [hmm] at hm
            have hmc : m = mkBest c := by simpa using hm.symm
            refine Or.inr ⟨(n, t), by rw [List.enumFrom_cons]; exact List.mem_cons_self _ _,
              c, ?_, hmc, show 40 ≤ fullScore creator model_name t c by omega⟩
            rw [hapi]
            exact hc
        · exact Or.inr ⟨p, by rw [List.enumFrom_cons]; exact List.mem_cons_of_mem _ hp, hcc⟩

theorem searchLoop_complete (api : SearchRequest → ApiOutcome) (uuids : Nat → String)
    (creator : Option String) (model_name : String) (limit : Nat) :
    ∀ (terms : List String) (n bs : Nat) (bm : Option BestMatch),
      bs < 100 → (bm = none → bs = 0) →
      (∀ p ∈ List.enumFrom n terms,
        api { taskUUID := uuids p.1, search := p.2, limit := limit, offset := 0 } ≠
          ApiOutcome.rexc) →
      ((bm.isSome = true ∧ 40 ≤ bs) ∨
        ∃ p ∈ List.enumFrom n terms,
          ∃ c ∈ resultsOf
            (api { taskUUID := uuids p.1, search := p.2, limit := limit, offset := 0 }),
            40 ≤ fullScore creator model_name p.2 c) →
      ((searchLoop api uuids creator model_name limit terms n bs bm).1).isSome = true := by
  intro terms
  induction terms with
  | nil =>
    intro n bs bm _ _ _ hd
    rcases hd with ⟨hsome, hge⟩ | ⟨p, hp, _⟩
    · simp only [searchLoop]
      rw [if_pos ⟨hsome, hge⟩]
      exact hsome
    · simp at hp
  | cons t rest ih =>
    intro n bs bm hbs h0 hnr hd
    have hhead := hnr (n, t) (by rw [List.enumFrom_cons]; exact List.mem_cons_self _ _)
    have htail : ∀ p ∈ List.enumFrom (n + 1) rest,
        api { taskUUID := uuids p.1, search := p.2, limit := limit, offset := 0 } ≠
          ApiOutcome.rexc :=
      fun p hp => hnr p (by rw [List.enumFrom_cons]; exact List.mem_cons_of_mem _ hp)
    cases hapi : api { taskUUID := uuids n, search := t, limit := limit, offset := 0 } with
    | rexc => exact absurd hapi hhead
    | skip =>
      simp only [searchLoop, hapi]
      apply ih (n + 1) bs bm hbs h0 htail
      rcases hd with hl | ⟨p, hp, hcc⟩
      · exact Or.inl hl
      · rw [List.enumFrom_cons] at hp
        rcases List.mem_cons.mp hp with rfl | hp'
        · rw [hapi] at hcc
          obtain ⟨c, hc, _⟩ := hcc
          simp [resultsOf] at hc
        · exact Or.inr ⟨p, hp', hcc⟩
    | ok results =>
      simp only [searchLoop, hapi]
      cases hscan : scanResults creator model_name t results bs bm with
      | inl r =>
        obtain ⟨c, _, _, hr⟩ :=
          scanResults_inl_exists creator model_name t results bs bm r hbs hscan
        rw [hr]
        rfl
      | inr pair =>
        obtain ⟨bs', bm'⟩ := pair
        obtain ⟨h1, h2, h3, h4⟩ :=
          scanResults_inr_spec creator model_name t results bs bm bs' bm' hbs hscan
        have h0' : bm' = none → bs' = 0 := by
          rcases h4 with ⟨hb, hm⟩ | ⟨c, _, hm, _⟩
          · intro hn
            rw [hm] at hn
            rw [hb]
            exact h0 hn
          · intro hn
            rw [hm] at hn
            simp at hn
        apply ih (n + 1) bs' bm' h2 h0' htail
        have hbmsome : bm.isSome = true → bm'.isSome = true := by
          intro hs
          rcases h4 with ⟨_, hm⟩ | ⟨c, _, hm, _⟩
          · rw [hm]
            exact hs
          · rw [hm]
            rfl
        rcases hd with ⟨hsome, hge⟩ | ⟨p, hp, hcc⟩
        · exact Or.inl ⟨hbmsome hsome, Nat.le_trans hge h1⟩
        · rw [List.enumFrom_cons] at hp
          rcases List.mem_cons.mp hp with rfl | hp'
          · rw [hapi] at hcc
            obtain ⟨c, hc, hcs⟩ := hcc
            have hc' : c ∈ results := by simpa [resultsOf] using hc
            have hge' : 40 ≤ bs' := Nat.le_trans hcs (h3 c hc')
            have hsome' : bm'.isSome = true := by
              rcases h4 with ⟨hb, hm⟩ | ⟨c', _, hm, _⟩
              · rw [hm]
                cases hbm : bm with
                | none =>
                  exfalso
                  have := h0 hbm
                  omega
                | some x => rfl
              · rw [hm]
                rfl
            exact Or.inl ⟨hsome', hge'⟩
          · exact Or.inr ⟨p, hp', hcc⟩

theorem reachesExc_none (api : SearchRequest → ApiOutcome) (uuids : Nat → String)
    (creator : Option String) (model_name : String) (limit : Nat) :
    ∀ (terms : List String) (n bs : Nat) (bm : Option BestMatch),
      reachesExc api uuids creator model_name limit terms n bs bm = true →
      (searchLoop api uuids creator model_name limit terms n bs bm).1 = none := by
  intro terms
  induction terms with
  | nil =>
    intro n bs bm h
    simp [reachesExc] at h
  | cons t rest ih =>
    intro n bs bm h
    cases hapi : api { taskUUID := uuids n, search := t, limit := limit, offset := 0 } with
    | rexc => simp only [searchLoop, hapi]
    | skip =>
      simp only [reachesExc, hapi] at h
      simp only [searchLoop, hapi]
      exact ih (n + 1) bs bm h
    | ok results =>
      simp only [reachesExc, hapi] at h
      simp only [searchLoop, hapi]
      cases hscan : scanResults creator model_name t results bs bm with
      | inl r =>
        rw [hscan] at h
        simp at h
      | inr pair =>
        obtain ⟨bs', bm'⟩ := pair
        rw [hscan] at h
        exact ih (n + 1) bs' bm' h

theorem scanResults_no_shortcircuit (creator : Option String)
    (model_name search_term : String) :
    ∀ (cands : List Candidate) (bs : Nat) (bm : Option BestMatch),
      (∀ c' ∈ cands, fullScore creator model_name search_term c' < 100) →
      ∃ q, scanResults creator model_name search_term cands bs bm = Sum.inr q := by
  intro cands
  induction cands with
  | nil =>
    intro bs bm _
    exact ⟨(bs, bm), rfl⟩
  | cons c rest ih =>
    intro bs bm hlt
    have hc : fullScore creator model_name search_term c < 100 :=
      hlt c (List.mem_cons_self _ _)
    have hrest : ∀ c' ∈ rest, fullScore creator model_name search_term c' < 100 :=
      fun c' hc' => hlt c' (List.mem_cons_of_mem _ hc')
    obtain ⟨q, hq⟩ := ih (if bs < fullScore creator model_name search_term c then
        fullScore creator model_name search_term c else bs)
      (if bs < fullScore creator model_name search_term c then some (mkBest c) else bm) hrest
    refine ⟨q, ?_⟩
    simp only [scanResults, if_neg (Nat.not_le_of_lt hc)]
    exact hq

theorem searchLoop_shortcircuit (api : SearchRequest → ApiOutcome) (uuids : Nat → String)
    (creator : Option String) (model_name : String) (limit : Nat) :
    ∀ (ts1 : List String) (t : String) (ts2 : List String) (cs1 : List Candidate)
      (c : Candidate) (cs2 : List Candidate) (n bs : Nat) (bm : Option BestMatch),
      bs < 100 →
      (∀ p ∈ List.enumFrom n ts1,
        api { taskUUID := uuids p.1, search := p.2, limit := limit, offset := 0 } =
          ApiOutcome.skip ∨
        ∃ results,
          api { taskUUID := uuids p.1, search := p.2, limit := limit, offset := 0 } =
            ApiOutcome.ok results ∧
          ∀ c' ∈ results, fullScore creator model_name p.2 c' < 100) →
      api { taskUUID := uuids (n + ts1.length), search := t, limit := limit, offset := 0 } =
        ApiOutcome.ok (cs1 ++ c :: cs2) →
      (∀ c' ∈ cs1, fullScore creator model_name t c' < 100) →
      100 ≤ fullScore creator model_name t c →
      (searchLoop api uuids creator model_name limit (ts1 ++ t :: ts2) n bs bm).1 =
        some (mkBest c) := by
  intro ts1
  induction ts1 with
  | nil =>
    intro t ts2 cs1 c cs2 n bs bm hbs _ hapi hlow h100
    simp only [List.length_nil, Nat.add_zero] at hapi
    simp only [List.nil_append, searchLoop, hapi]
    rw [scanResults_shortcircuit creator model_name t cs1 c cs2 bs bm hbs hlow h100]
  | cons t0 ts1' ih =>
    intro t ts2 cs1 c cs2 n bs bm hbs hpre hapi hlow h100
    have hhead := hpre (n, t0) (by rw [List.enumFrom_cons]; exact List.mem_cons_self _ _)
    have htail : ∀ p ∈ List.enumFrom (n + 1) ts1',
        api { taskUUID := uuids p.1, search := p.2, limit := limit, offset := 0 } =
          ApiOutcome.skip ∨
        ∃ results,
          api { taskUUID := uuids p.1, search := p.2, limit := limit, offset := 0 } =
            ApiOutcome.ok results ∧
          ∀ c' ∈ results, fullScore creator model_name p.2 c' < 100 :=
      fun p hp => hpre p (by rw [List.enumFrom_cons]; exact List.mem_cons_of_mem _ hp)
    have hlen : n + (t0 :: ts1').length = (n + 1) + ts1'.length := by
      simp only [List.length_cons]
      omega
    rw [hlen] at hapi
    rcases hhead with hskip | ⟨results0, hok, hsub⟩
    · simp only [List.cons_append, searchLoop, hskip]
      exact ih t ts2 cs1 c cs2 (n + 1) bs bm hbs htail hapi hlow h100
    · simp only [List.cons_append, searchLoop, hok]
      obtain ⟨q, hscan⟩ :=
        scanResults_no_shortcircuit creator model_name t0 results0 bs bm hsub
      obtain ⟨bs', bm'⟩ := q
      rw [hscan]
      obtain ⟨_, hbs', _, _⟩ :=
        scanResults_inr_spec creator model_name t0 results0 bs bm bs' bm' hbs hscan
      dsimp only
      exact ih t ts2 cs1 c cs2 (n + 1) bs' bm' hbs' htail hapi hlow h100

theorem searchLoop_returns_max (api : SearchRequest → ApiOutcome) (uuids : Nat → String)
    (creator : Option String) (model_name : String) (limit : Nat) :
    ∀ (terms : List String) (n bs : Nat) (bm : Option BestMatch) (m : BestMatch),
      bs < 100 → (bm = none → bs = 0) →
      (∀ p ∈ List.enumFrom n terms, ∀ c ∈ resultsOf
          (api { taskUUID := uuids p.1, search := p.2, limit := limit, offset := 0 }),
        fullScore creator model_name p.2 c < 100) →
      (searchLoop api uuids creator model_name limit terms n bs bm).1 = some m →
      (bm = some m ∧ 40 ≤ bs ∧
        ∀ p ∈ List.enumFrom n terms, ∀ c ∈ resultsOf
            (api { taskUUID := uuids p.1, search := p.2, limit := limit, offset := 0 }),
          fullScore creator model_name p.2 c ≤ bs) ∨
      (∃ p ∈ List.enumFrom n terms,
        ∃ c ∈ resultsOf
          (api { taskUUID := uuids p.1, search := p.2, limit := limit, offset := 0 }),
          m = mkBest c ∧ 40 ≤ fullScore creator model_name p.2 c ∧
          bs ≤ fullScore creator model_name p.2 c ∧
          ∀ q ∈ List.enumFrom n terms, ∀ c' ∈ resultsOf
              (api { taskUUID := uuids q.1, search := q.2, limit := limit, offset := 0 }),
            fullScore creator model_name q.2 c' ≤ fullScore creator model_name p.2 c) := by
  intro terms
  induction terms with
  | nil =>
    intro n bs bm m _ _ _ h
    simp only [searchLoop] at h
    split at h
    · rename_i hcond
      exact Or.inl ⟨h, hcond.2, by simp⟩
    · simp at h
  | cons t rest ih =>
    intro n bs bm m hbs h0 hsub h
    have hsubhead : ∀ c ∈ resultsOf
        (api { taskUUID := uuids n, search := t, limit := limit, offset := 0 }),
        fullScore creator model_name t c < 100 :=
      hsub (n, t) (by rw [List.enumFrom_cons]; exact List.mem_cons_self _ _)
    have hsubtail : ∀ p ∈ List.enumFrom (n + 1) rest, ∀ c ∈ resultsOf
        (api { taskUUID := uuids p.1, search := p.2, limit := limit, offset := 0 }),
        fullScore creator model_name p.2 c < 100 :=
      fun p hp => hsub p (by rw [List.enumFrom_cons]; exact List.mem_cons_of_mem _ hp)
    cases hapi : api { taskUUID := uuids n, search := t, limit := limit, offset := 0 } with
    | rexc =>
      simp only [searchLoop, hapi] at h
      simp at h
    | skip =>
      simp only [searchLoop, hapi] at h
      rcases ih (n + 1) bs bm m hbs h0 hsubtail h with ⟨hm, hge, hbd⟩ | ⟨p, hp, c, hc, hcc⟩
      · refine Or.inl ⟨hm, hge, ?_⟩
        intro q hq c' hc'
        rw [List.enumFrom_cons] at hq
        rcases List.mem_cons.mp hq with rfl | hq'
        · rw [hapi] at hc'
          simp [resultsOf] at hc'
        · exact hbd q hq' c' hc'
      · obtain ⟨hmk, hge, hle, hbd⟩ := hcc
        refine Or.inr ⟨p, by rw [List.enumFrom_cons]; exact List.mem_cons_of_mem _ hp,
          c, hc, hmk, hge, hle, ?_⟩
        intro q hq c' hc'
        rw [List.enumFrom_cons] at hq
        rcases List.mem_cons.mp hq with rfl | hq'
        · rw [hapi] at hc'
          simp [resultsOf] at hc'
        · exact hbd q hq' c' hc'
    | ok results =>
      simp only [searchLoop, hapi] at h
      have hsubres : ∀ c ∈ results, fullScore creator model_name t c < 100 := by
        intro c hc
        apply hsubhead
        rw [hapi]
        exact hc
      obtain ⟨q0, hscan⟩ :=
        scanResults_no_shortcircuit creator model_name t results bs bm hsubres
      obtain ⟨bs', bm'⟩ := q0
      rw [hscan] at h
      obtain ⟨h1, h2, h3, h4⟩ :=
        scanResults_inr_spec creator model_name t results bs bm bs' bm' hbs hscan
      have h0' : bm' = none → bs' = 0 := by
        rcases h4 with ⟨hb, hm⟩ | ⟨c, _, hm, _⟩
        · intro hn
          rw [hm] at hn
          rw [hb]
          exact h0 hn
        · intro hn
          rw [hm] at hn
          simp at hn
      rcases ih (n + 1) bs' bm' m h2 h0' hsubtail h with ⟨hm, hge, hbd⟩ | ⟨p, hp, c, hc, hcc⟩
      · rcases h4 with ⟨hb, hmm⟩ | ⟨c0, hc0, hmm, hs0⟩
        · rw [hmm] at hm
          rw [hb] at hge hbd
          refine Or.inl ⟨hm, hge, ?_⟩
          intro q hq c' hc'
          rw [List.enumFrom_cons] at hq
          rcases List.mem_cons.mp hq with rfl | hq'
          · dsimp only at hc' ⊢
            have hc'' : c' ∈ results := by
              rw [hapi] at hc'
              simpa [resultsOf] using hc'
            have := h3 c' hc''
            omega
          · exact hbd q hq' c' hc'
        · rw [hmm] at hm
          have hmc : m = mkBest c0 := by simpa using hm.symm
          refine Or.inr ⟨(n, t), by rw [List.enumFrom_cons]; exact List.mem_cons_self _ _,
            c0, ?_, hmc,
            show 40 ≤ fullScore creator model_name t c0 by omega,
            show bs ≤ fullScore creator model_name t c0 by omega, ?_⟩
          · rw [hapi]
            exact hc0
          · intro q hq c' hc'
            dsimp only at hc' ⊢
            rw [List.enumFrom_cons] at hq
            rcases List.mem_cons.mp hq with rfl | hq'
            · dsimp only at hc' ⊢
              have hc'' : c' ∈ results := by
                rw [hapi] at hc'
                simpa [resultsOf] using hc'
              have := h3 c' hc''
              omega
            · have := hbd q hq' c' hc'
              omega
      · obtain ⟨hmk, hge, hle, hbd⟩ := hcc
        refine Or.inr ⟨p, by rw [List.enumFrom_cons]; exact List.mem_cons_of_mem _ hp,
          c, hc, hmk, hge, by omega, ?_⟩
        intro q hq c' hc'
        rw [List.enumFrom_cons] at hq
        rcases List.mem_cons.mp hq with rfl | hq'
        · dsimp only at hc' ⊢
          have hc'' : c' ∈ results := by
            rw [hapi] at hc'
            simpa [resultsOf] using hc'
          have := h3 c' hc''
          omega
        · exact hbd q hq' c' hc'

/-! ## Spec-side scoring formulas (for the refinement comparison of C2) -/

/-- The per-candidate score as the claim words it: 100 on case-insensitive
exact match with the original name or the current variant, else 80 on
substring containment between candidate and variant, else 20 per shared
word (hyphens as separators) between original and candidate, plus a 10-point
bonus whenever a creator hint is supplied and appears in the candidate's
serialized fields. -/
def claimScore (creator : Option String) (original variant : String) (c : Candidate) : Nat :=
  let cand := pyLower (c.name.getD "")
  let base :=
    if cand = pyLower original ∨ cand = pyLower variant then 100
    else if strIn (pyLower variant) cand ∨ strIn cand (pyLower variant) then 80
    else 20 * (commonWordsHyphen (pyLower original) cand).length
  let bonus :=
    match creator with
    | some cr => if cr ≠ "" ∧ strIn (pyLower cr) (pyLower c.reprStr) then 10 else 0
    | none => 0
  base + bonus

/-- The claim's score formula amended minimally: the 10-point creator bonus
additionally requires the base score to be positive. -/
def claimScoreAmended (creator : Option String) (original variant : String)
    (c : Candidate) : Nat :=
  let cand := pyLower (c.name.getD "")
  let base :=
    if cand = pyLower original ∨ cand = pyLower variant then 100
    else if strIn (pyLower variant) cand ∨ strIn cand (pyLower variant) then 80
    else 20 * (commonWordsHyphen (pyLower original) cand).length
  let bonus :=
    match creator with
    | some cr => if cr ≠ "" ∧ 0 < base ∧ strIn (pyLower cr) (pyLower c.reprStr) then 10 else 0
    | none => 0
  base + bonus

/-- A candidate sharing no words with the searched name but mentioning the
creator in its serialized fields. -/
def cC2 : Candidate := ⟨some "zzz", none, none, none, none, [], "creator google"⟩

/-- C2 counterexample: for a candidate with base score 0 and a matching
creator hint, the resolver scores 0 while the claim's formula gives 10, so
the claimed formula does not equal the implemented score. -/
theorem C2_creator_bonus_counterexample :
    fullScore (some "google") "alpha" "alpha" cC2 = 0 ∧
    claimScore (some "google") "alpha" "alpha" cC2 = 10 ∧
    fullScore (some "google") "alpha" "alpha" cC2 ≠
      claimScore (some "google") "alpha" "alpha" cC2 := by
  decide

theorem ite_bonus_split (P : Prop) [Decidable P] (b : Nat) :
    (if P then b + 10 else b) = b + (if P then 10 else 0) := by
  split <;> simp

/-- C2 (amended): the resolver's score equals the claimed formula with the
creator bonus restricted to candidates whose base score is positive. -/
theorem C2_score_formula_amended :
    ∀ (creator : Option String) (model_name search_term : String) (c : Candidate),
      fullScore creator model_name search_term c =
        claimScoreAmended creator model_name search_term c := by
  intro creator model_name search_term c
  cases creator with
  | none => rfl
  | some cr =>
    exact ite_bonus_split
      (cr ≠ "" ∧
        0 < baseScore (pyLower model_name) (pyLower search_term) (pyLower (c.name.getD "")) ∧
        strIn (pyLower cr) (pyLower c.reprStr) = true)
      (baseScore (pyLower model_name) (pyLower search_term) (pyLower (c.name.getD "")))

/-- The API behaviour exhibiting C1's divergence: the search returns one
exactly-matching candidate whose `air` field is missing. -/
def apiC1 : SearchRequest → ApiOutcome := fun _ =>
  ApiOutcome.ok [⟨some "m", none, none, none, none, [], "r"⟩]

/-- C1: when the API returns an accepted candidate with no `air` identifier,
the enrichment loop still appends the record, so a record with a null `air`
is persisted (the code only tests that a best match exists, despite its
stated intent to skip models without AIR). -/
theorem C1_null_air_record_persisted :
    (enrich_models_by_name apiC1 (fun _ => "u") [] [⟨"m", none⟩]).map CuratedRecord.air =
      [none] := by
  decide

/-- C7: in every output document built by the pipeline, `total_models` equals
the length of the `models` list. -/
theorem C7_total_models_matches_length :
    ∀ (api : SearchRequest → ApiOutcome) (uuids : Nat → String)
      (pricing : List (String × PriceRecord)) (today : String) (col : Collection)
      (scraped : List ScrapedEntry),
      (popular_output api uuids pricing today).total_models =
        ((popular_output api uuids pricing today).models).length ∧
      (collection_output api uuids pricing col scraped today).total_models =
        ((collection_output api uuids pricing col scraped today).models).length :=
  fun _ _ _ _ _ _ => ⟨rfl, rfl⟩

/-- C10: a successfully resolved scraped entry is written with `name` equal to
the API-returned candidate name when that is non-empty and the scraped display
name otherwise, and its pricing lookup is keyed on that same chosen name. -/
theorem C10_scraped_record_name_and_pricing :
    ∀ (api : SearchRequest → ApiOutcome) (uuids : Nat → String)
      (pricing : List (String × PriceRecord)) (e : ScrapedEntry) (rest : List ScrapedEntry)
      (n n' : Nat) (d : BestMatch),
      resolveScraped api uuids e n = (some d, n') →
      ∃ rec : ScrapedRecord,
        enrichByIdGo api uuids pricing (e :: rest) n =
          rec :: enrichByIdGo api uuids pricing rest n' ∧
        (∀ s, d.name = some s → s ≠ "" → rec.name = s) ∧
        ((d.name = none ∨ d.name = some "") → rec.name = e.name) ∧
        rec.pricing = (match_pricing pricing rec.name).map applyPricing := by
  intro api uuids pricing e rest n n' d hres
  refine ⟨⟨e.model_id, pyOrStr d.name e.name, d.air, d.category, d.ctype, d.architecture,
    d.tags, (match_pricing pricing (pyOrStr d.name e.name)).map applyPricing⟩,
    ?_, ?_, ?_, rfl⟩
  · simp only [enrichByIdGo, hres]
  · intro s hs hne
    simp [pyOrStr, hs, hne]
  · rintro (hn | hn) <;> simp [pyOrStr, hn]

/-- A scraped entry used as concrete input for the C10 witness. -/
def eC10 : ScrapedEntry := ⟨"scrap-id", "Scrap Name"⟩

/-- An API returning a substring-matching candidate with a longer name. -/
def apiC10 : SearchRequest → ApiOutcome := fun _ =>
  ApiOutcome.ok [⟨some "Scrap Name Pro", some "air:10", none, none, none, [], "r"⟩]

/-- Witness for C10 at a concrete scraped entry and API response. -/
theorem C10_scraped_record_name_and_pricing_witness :
    ∃ rec : ScrapedRecord,
      enrichByIdGo apiC10 (fun _ => "u") [] [eC10] 0 =
        rec :: enrichByIdGo apiC10 (fun _ => "u") [] [] 1 ∧
      (∀ s, (some "Scrap Name Pro" : Option String) = some s → s ≠ "" → rec.name = s) ∧
      (((some "Scrap Name Pro" : Option String) = none ∨
          (some "Scrap Name Pro" : Option String) = some "") → rec.name = eC10.name) ∧
      rec.pricing = (match_pricing [] rec.name).map applyPricing :=
  C10_scraped_record_name_and_pricing apiC10 (fun _ => "u") [] eC10 [] 0 1
    ⟨some "air:10", some "Scrap Name Pro", none, none, none, []⟩ (by decide)

/-- C3: absent any request/parse exception, `search_model_details` returns a
resolved model iff some candidate of some search variant scores at least 40;
and whenever the execution reaches an exception, the call returns nothing
(the exception is swallowed, not propagated). -/
theorem C3_accept_threshold_and_exception_swallowing :
    ∀ (api : SearchRequest → ApiOutcome) (uuids : Nat → String) (model_name : String)
      (creator : Option String) (limit n0 : Nat),
      ((∀ p ∈ List.enumFrom n0 (search_terms model_name),
          api { taskUUID := uuids p.1, search := p.2, limit := limit, offset := 0 } ≠
            ApiOutcome.rexc) →
        (((search_model_details api uuids model_name creator limit n0).1).isSome = true ↔
          ∃ p ∈ List.enumFrom n0 (search_terms model_name),
            ∃ c ∈ resultsOf
              (api { taskUUID := uuids p.1, search := p.2, limit := limit, offset := 0 }),
              40 ≤ fullScore creator model_name p.2 c)) ∧
      (reachesExc api uuids creator model_name limit (search_terms model_name) n0 0 none =
          true →
        (search_model_details api uuids model_name creator limit n0).1 = none) := by
  intro api uuids model_name creator limit n0
  constructor
  · intro hnr
    constructor
    · intro hs
      obtain ⟨m, hm⟩ := Option.isSome_iff_exists.mp hs
      rcases searchLoop_some_spec api uuids creator model_name limit
          (search_terms model_name) n0 0 none m (by omega) (fun _ => rfl) hm with
        ⟨hcon, _⟩ | ⟨p, hp, c, hc, _, hge⟩
      · exact absurd hcon (by simp)
      · exact ⟨p, hp, c, hc, hge⟩
    · intro hex
      obtain ⟨p, hp, c, hc, hge⟩ := hex
      exact searchLoop_complete api uuids creator model_name limit (search_terms model_name)
        n0 0 none (by omega) (fun _ => rfl) hnr (Or.inr ⟨p, hp, c, hc, hge⟩)
  · intro hexc
    exact reachesExc_none api uuids creator model_name limit (search_terms model_name)
      n0 0 none hexc

/-- An API whose single candidate scores 80 against the searched name. -/
def apiC3 : SearchRequest → ApiOutcome := fun _ =>
  ApiOutcome.ok [⟨some "modelx pro", some "air:3", none, none, none, [], "r"⟩]

/-- Witness for C3: at a concrete exception-free API whose best candidate
scores 80 ≥ 40, the resolver returns a match. -/
theorem C3_accept_threshold_and_exception_swallowing_witness :
    ((search_model_details apiC3 (fun _ => "u") "modelx" none 20 0).1).isSome = true :=
  ((C3_accept_threshold_and_exception_swallowing apiC3 (fun _ => "u") "modelx"
      none 20 0).1 (by decide)).mpr (by decide)

/-- The two candidates of the C4 scenario. -/
def cImagenExact : Candidate :=
  ⟨some "Imagen 4 Fast", some "air:imagen-4-fast", none, none, none, [], "r1"⟩

/-- The partially matching candidate of the C4 scenario. -/
def cImagenPartial : Candidate :=
  ⟨some "Imagen 4", some "air:imagen-4", none, none, none, [], "r2"⟩

/-- API returning the exact match first. -/
def apiImagenA : SearchRequest → ApiOutcome := fun _ =>
  ApiOutcome.ok [cImagenExact, cImagenPartial]

/-- API returning the partial match first. -/
def apiImagenB : SearchRequest → ApiOutcome := fun _ =>
  ApiOutcome.ok [cImagenPartial, cImagenExact]

/-- C4: the resolver returns a candidate scoring at least 100 immediately, in
whichever variant the loop reaches it — earlier variants having been skipped
or scored wholly below 100, the remaining candidates and variants are never
consulted; when no candidate reaches 100, the returned match is the single
highest-scoring candidate across all variants and all returned results; and
in the concrete "Imagen 4 Fast" scenario the exact match (score 100) is
selected over the partial match (score 80) in either candidate order. -/
theorem C4_shortcircuit_and_exact_over_partial :
    (∀ (api : SearchRequest → ApiOutcome) (uuids : Nat → String) (creator : Option String)
      (model_name : String) (limit n0 : Nat) (ts1 : List String) (t : String)
      (ts2 : List String) (cs1 : List Candidate) (c : Candidate) (cs2 : List Candidate),
      search_terms model_name = ts1 ++ t :: ts2 →
      (∀ p ∈ List.enumFrom n0 ts1,
        api { taskUUID := uuids p.1, search := p.2, limit := limit, offset := 0 } =
          ApiOutcome.skip ∨
        ∃ results,
          api { taskUUID := uuids p.1, search := p.2, limit := limit, offset := 0 } =
            ApiOutcome.ok results ∧
          ∀ c' ∈ results, fullScore creator model_name p.2 c' < 100) →
      api { taskUUID := uuids (n0 + ts1.length), search := t, limit := limit, offset := 0 } =
        ApiOutcome.ok (cs1 ++ c :: cs2) →
      (∀ c' ∈ cs1, fullScore creator model_name t c' < 100) →
      100 ≤ fullScore creator model_name t c →
      (search_model_details api uuids model_name creator limit n0).1 = some (mkBest c)) ∧
    (∀ (api : SearchRequest → ApiOutcome) (uuids : Nat → String) (creator : Option String)
      (model_name : String) (limit n0 : Nat) (m : BestMatch),
      (∀ p ∈ List.enumFrom n0 (search_terms model_name), ∀ c ∈ resultsOf
          (api { taskUUID := uuids p.1, search := p.2, limit := limit, offset := 0 }),
        fullScore creator model_name p.2 c < 100) →
      (search_model_details api uuids model_name creator limit n0).1 = some m →
      ∃ p ∈ List.enumFrom n0 (search_terms model_name),
        ∃ c ∈ resultsOf
          (api { taskUUID := uuids p.1, search := p.2, limit := limit, offset := 0 }),
          m = mkBest c ∧ 40 ≤ fullScore creator model_name p.2 c ∧
          ∀ q ∈ List.enumFrom n0 (search_terms model_name), ∀ c' ∈ resultsOf
              (api { taskUUID := uuids q.1, search := q.2, limit := limit, offset := 0 }),
            fullScore creator model_name q.2 c' ≤ fullScore creator model_name p.2 c) ∧
    (search_model_details apiImagenA (fun _ => "u") "Imagen 4 Fast" none 20 0).1 =
      some (mkBest cImagenExact) ∧
    (search_model_details apiImagenB (fun _ => "u") "Imagen 4 Fast" none 20 0).1 =
      some (mkBest cImagenExact) := by
  refine ⟨?_, ?_, by decide, by decide⟩
  · intro api uuids creator model_name limit n0 ts1 t ts2 cs1 c cs2 hterms hpre hapi hlow h100
    unfold search_model_details
    rw [hterms]
    exact searchLoop_shortcircuit api uuids creator model_name limit ts1 t ts2 cs1 c cs2
      n0 0 none (by omega) hpre hapi hlow h100
  · intro api uuids creator model_name limit n0 m hsub hm
    rcases searchLoop_returns_max api uuids creator model_name limit
        (search_terms model_name) n0 0 none m (by omega) (fun _ => rfl) hsub hm with
      ⟨hcon, _⟩ | ⟨p, hp, c, hc, hmk, hge, _, hbd⟩
    · exact absurd hcon (by simp)
    · exact ⟨p, hp, c, hc, hmk, hge, hbd⟩

/-- A candidate matching the second search variant of "Flux [dev]" exactly. -/
def cFluxHit : Candidate := ⟨some "flux dev", some "air:flux", none, none, none, [], "rf"⟩

/-- An API that skips the first variant and answers only the bracket-stripped
second variant, to exercise a later-variant short-circuit. -/
def apiC4w1 : SearchRequest → ApiOutcome := fun r =>
  if r.search = "Flux dev" then ApiOutcome.ok [cFluxHit] else ApiOutcome.skip

/-- A candidate scoring 20 against "modelz two" (one shared word). -/
def cC4w20 : Candidate := ⟨some "modelz three", some "air:w20", none, none, none, [], "r"⟩

/-- A candidate scoring 80 against "modelz two" (substring containment). -/
def cC4w80 : Candidate := ⟨some "modelz two pro", some "air:w80", none, none, none, [], "r"⟩

/-- An API returning the lower-scoring candidate first. -/
def apiC4w2 : SearchRequest → ApiOutcome := fun _ => ApiOutcome.ok [cC4w20, cC4w80]

/-- Witness for C4: the short-circuit conjunct fires in the second search
variant ("Flux dev") after the first variant was skipped, and the
highest-score conjunct at a sub-100 API names the returned candidate as the
maximum. -/
theorem C4_shortcircuit_and_exact_over_partial_witness :
    (search_model_details apiC4w1 (fun _ => "u") "Flux [dev]" none 20 0).1 =
      some (mkBest cFluxHit) ∧
    (∃ p ∈ List.enumFrom 0 (search_terms "modelz two"),
      ∃ c ∈ resultsOf (apiC4w2 { taskUUID := "u", search := p.2, limit := 20, offset := 0 }),
        mkBest cC4w80 = mkBest c ∧ 40 ≤ fullScore none "modelz two" p.2 c ∧
        ∀ q ∈ List.enumFrom 0 (search_terms "modelz two"), ∀ c' ∈ resultsOf
            (apiC4w2 { taskUUID := "u", search := q.2, limit := 20, offset := 0 }),
          fullScore none "modelz two" q.2 c' ≤ fullScore none "modelz two" p.2 c) :=
  ⟨ C4_shortcircuit_and_exact_over_partial.1 apiC4w1 (fun _ => "u") none "Flux [dev]" 20 0
      ["Flux [dev]"] "Flux dev" [] [] cFluxHit [] (by decide)
      (by
        intro p hp
        rw [show List.enumFrom 0 ["Flux [dev]"] = [(0, "Flux [dev]")] from rfl] at hp
        have hp' := List.mem_singleton.mp hp
        subst hp'
        exact Or.inl (by decide))
      (by decide) (by intro c' hc'; simp at hc') (by decide),
    C4_shortcircuit_and_exact_over_partial.2.1 apiC4w2 (fun _ => "u") none "modelz two"
      20 0 (mkBest cC4w80) (by decide) (by decide)⟩

/-- A base score of 0 suppresses the creator bonus entirely. -/
theorem fullScore_of_base_zero (creator : Option String) (model_name search_term : String)
    (c : Candidate)
    (h : baseScore (pyLower model_name) (pyLower search_term) (pyLower (c.name.getD "")) = 0) :
    fullScore creator model_name search_term c = 0 := by
  cases creator with
  | none => exact h
  | some cr =>
    show (if cr ≠ "" ∧
        0 < baseScore (pyLower model_name) (pyLower search_term) (pyLower (c.name.getD "")) ∧
        strIn (pyLower cr) (pyLower c.reprStr) = true
      then baseScore (pyLower model_name) (pyLower search_term) (pyLower (c.name.getD "")) + 10
      else baseScore (pyLower model_name) (pyLower search_term) (pyLower (c.name.getD ""))) = 0
    rw [h]
    simp

/-- C9: a candidate whose base score is 0 keeps score 0 even with a matching
creator hint, and every candidate the resolver actually returns scored at
least 40, hence had a nonzero base score — a candidate matching only on
creator is never the selected best match. -/
theorem C9_zero_base_never_selected :
    (∀ (creator : Option String) (model_name search_term : String) (c : Candidate),
      baseScore (pyLower model_name) (pyLower search_term) (pyLower (c.name.getD "")) = 0 →
      fullScore creator model_name search_term c = 0) ∧
    (∀ (api : SearchRequest → ApiOutcome) (uuids : Nat → String) (model_name : String)
      (creator : Option String) (limit n0 : Nat) (m : BestMatch),
      (search_model_details api uuids model_name creator limit n0).1 = some m →
      ∃ p ∈ List.enumFrom n0 (search_terms model_name),
        ∃ c ∈ resultsOf
          (api { taskUUID := uuids p.1, search := p.2, limit := limit, offset := 0 }),
          m = mkBest c ∧ 40 ≤ fullScore creator model_name p.2 c ∧
          baseScore (pyLower model_name) (pyLower p.2) (pyLower (c.name.getD "")) ≠ 0) := by
  constructor
  · exact fullScore_of_base_zero
  · intro api uuids model_name creator limit n0 m hm
    rcases searchLoop_some_spec api uuids creator model_name limit
        (search_terms model_name) n0 0 none m (by omega) (fun _ => rfl) hm with
      ⟨hcon, _⟩ | ⟨p, hp, c, hc, hmk, hge⟩
    · exact absurd hcon (by simp)
    · refine ⟨p, hp, c, hc, hmk, hge, ?_⟩
      intro hz
      have h0 := fullScore_of_base_zero creator model_name p.2 c hz
      omega

/-- An API whose candidate scores 80 for the C9 witness. -/
def apiC9 : SearchRequest → ApiOutcome := fun _ =>
  ApiOutcome.ok [⟨some "modely pro", some "air:9", none, none, none, [], "r"⟩]

/-- Witness for C9 at concrete inputs: the bonus-suppression conjunct at a
zero-base candidate, and the returned-match conjunct at a concrete API. -/
theorem C9_zero_base_never_selected_witness :
    fullScore (some "google") "alpha" "alpha"
      ⟨some "zzz", none, none, none, none, [], "made by google"⟩ = 0 ∧
    ∃ p ∈ List.enumFrom 0 (search_terms "modely"),
      ∃ c ∈ resultsOf
        (apiC9 { taskUUID := "u", search := p.2, limit := 20, offset := 0 }),
        (⟨some "air:9", some "modely pro", none, none, none, []⟩ : BestMatch) = mkBest c ∧
        40 ≤ fullScore none "modely" p.2 c ∧
        baseScore (pyLower "modely") (pyLower p.2) (pyLower (c.name.getD "")) ≠ 0 :=
  ⟨C9_zero_base_never_selected.1 (some "google") "alpha" "alpha"
      ⟨some "zzz", none, none, none, none, [], "made by google"⟩ (by decide),
    C9_zero_base_never_selected.2 apiC9 (fun _ => "u") "modely" none 20 0
      ⟨some "air:9", some "modely pro", none, none, none, []⟩ (by decide)⟩

/-! ## UUID-independence lemmas for C8 -/

theorem searchLoop_uuid_indep (api : SearchRequest → ApiOutcome) (u1 u2 : Nat → String)
    (creator : Option String) (model_name : String) (limit : Nat)
    (hstable : ∀ (a b s : String) (l o : Nat),
      api { taskUUID := a, search := s, limit := l, offset := o } =
        api { taskUUID := b, search := s, limit := l, offset := o }) :
    ∀ (terms : List String) (n bs : Nat) (bm : Option BestMatch),
      searchLoop api u1 creator model_name limit terms n bs bm =
        searchLoop api u2 creator model_name limit terms n bs bm := by
  intro terms
  induction terms with
  | nil => intro n bs bm; rfl
  | cons t rest ih =>
    intro n bs bm
    have he : api { taskUUID := u1 n, search := t, limit := limit, offset := 0 } =
        api { taskUUID := u2 n, search := t, limit := limit, offset := 0 } :=
      hstable _ _ _ _ _
    simp only [searchLoop, he]
    cases hapi2 : api { taskUUID := u2 n, search := t, limit := limit, offset := 0 } with
    | rexc => rfl
    | skip =>
      dsimp only
      exact ih (n + 1) bs bm
    | ok results =>
      dsimp only
      cases hscan : scanResults creator model_name t results bs bm with
      | inl r => rfl
      | inr pair =>
        obtain ⟨bs', bm'⟩ := pair
        dsimp only
        exact ih (n + 1) bs' bm'

theorem search_model_details_uuid_indep (api : SearchRequest → ApiOutcome)
    (u1 u2 : Nat → String) (model_name : String) (creator : Option String) (limit n0 : Nat)
    (hstable : ∀ (a b s : String) (l o : Nat),
      api { taskUUID := a, search := s, limit := l, offset := o } =
        api { taskUUID := b, search := s, limit := l, offset := o }) :
    search_model_details api u1 model_name creator limit n0 =
      search_model_details api u2 model_name creator limit n0 :=
  searchLoop_uuid_indep api u1 u2 creator model_name limit hstable
    (search_terms model_name) n0 0 none

theorem enrichByNameGo_uuid_indep (api : SearchRequest → ApiOutcome) (u1 u2 : Nat → String)
    (pricing : List (String × PriceRecord))
    (hstable : ∀ (a b s : String) (l o : Nat),
      api { taskUUID := a, search := s, limit := l, offset := o } =
        api { taskUUID := b, search := s, limit := l, offset := o }) :
    ∀ (models_list : List CuratedEntry) (n : Nat),
      enrichByNameGo api u1 pricing models_list n =
        enrichByNameGo api u2 pricing models_list n := by
  intro models_list
  induction models_list with
  | nil => intro n; rfl
  | cons m rest ih =>
    intro n
    have hs := search_model_details_uuid_indep api u1 u2 m.name m.creator 20 n hstable
    simp only [enrichByNameGo, hs]
    cases search_model_details api u2 m.name m.creator 20 n with
    | mk fst snd =>
      cases fst with
      | none =>
        dsimp only
        exact ih snd
      | some d =>
        dsimp only
        rw [ih snd]

theorem resolveScraped_uuid_indep (api : SearchRequest → ApiOutcome) (u1 u2 : Nat → String)
    (e : ScrapedEntry) (n : Nat)
    (hstable : ∀ (a b s : String) (l o : Nat),
      api { taskUUID := a, search := s, limit := l, offset := o } =
        api { taskUUID := b, search := s, limit := l, offset := o }) :
    resolveScraped api u1 e n = resolveScraped api u2 e n := by
  unfold resolveScraped
  rw [search_model_details_uuid_indep api u1 u2 e.name none 20 n hstable]
  cases hfirst : (if e.name ≠ "" then search_model_details api u2 e.name none 20 n
      else (none, n)) with
  | mk fst snd =>
    cases fst with
    | none =>
      simp only []
      exact search_model_details_uuid_indep api u1 u2 e.model_id none 20 snd hstable
    | some d => rfl

theorem enrichByIdGo_uuid_indep (api : SearchRequest → ApiOutcome) (u1 u2 : Nat → String)
    (pricing : List (String × PriceRecord))
    (hstable : ∀ (a b s : String) (l o : Nat),
      api { taskUUID := a, search := s, limit := l, offset := o } =
        api { taskUUID := b, search := s, limit := l, offset := o }) :
    ∀ (models_list : List ScrapedEntry) (n : Nat),
      enrichByIdGo api u1 pricing models_list n =
        enrichByIdGo api u2 pricing models_list n := by
  intro models_list
  induction models_list with
  | nil => intro n; rfl
  | cons m rest ih =>
    intro n
    have hs := resolveScraped_uuid_indep api u1 u2 m n hstable
    simp only [enrichByIdGo, hs]
    cases resolveScraped api u2 m n with
    | mk fst snd =>
      cases fst with
      | none =>
        dsimp only
        exact ih snd
      | some d =>
        dsimp only
        rw [ih snd]

/-- C8: with a remote API whose responses depend only on the request's search
string (not on the generated task UUID), two runs with identical inputs and
different UUID streams and dates produce identical output documents except
for the `date_extracted` field. -/
theorem C8_output_deterministic_modulo_date :
    ∀ (api : SearchRequest → ApiOutcome) (u1 u2 : Nat → String)
      (pricing : List (String × PriceRecord)) (col : Collection)
      (scraped : List ScrapedEntry) (d1 d2 : String),
      (∀ (a b s : String) (l o : Nat),
        api { taskUUID := a, search := s, limit := l, offset := o } =
          api { taskUUID := b, search := s, limit := l, offset := o }) →
      popular_output api u1 pricing d1 =
        { popular_output api u2 pricing d2 with date_extracted := d1 } ∧
      collection_output api u1 pricing col scraped d1 =
        { collection_output api u2 pricing col scraped d2 with date_extracted := d1 } := by
  intro api u1 u2 pricing col scraped d1 d2 hstable
  constructor
  · have he : enrich_models_by_name api u1 pricing POPULAR_MODELS =
        enrich_models_by_name api u2 pricing POPULAR_MODELS :=
      enrichByNameGo_uuid_indep api u1 u2 pricing hstable POPULAR_MODELS 0
    simp only [popular_output, he]
  · have he : enrich_models_by_id api u1 pricing scraped =
        enrich_models_by_id api u2 pricing scraped :=
      enrichByIdGo_uuid_indep api u1 u2 pricing hstable scraped 0
    simp only [collection_output, he]

/-- Witness for C8 at a concrete stable API, two UUID streams and two dates. -/
theorem C8_output_deterministic_modulo_date_witness :
    popular_output (fun _ => ApiOutcome.skip) (fun _ => "uuid-a") [] "2026-01-01" =
      { popular_output (fun _ => ApiOutcome.skip) (fun _ => "uuid-b") [] "2026-02-02" with
          date_extracted := "2026-01-01" } ∧
    collection_output (fun _ => ApiOutcome.skip) (fun _ => "uuid-a") []
        ⟨"Best for Text on Images", "https://runware.ai/collections/best-for-text-on-images",
          "best_models.json"⟩ [⟨"id-1", "Name 1"⟩] "2026-01-01" =
      { collection_output (fun _ => ApiOutcome.skip) (fun _ => "uuid-b") []
          ⟨"Best for Text on Images", "https://runware.ai/collections/best-for-text-on-images",
            "best_models.json"⟩ [⟨"id-1", "Name 1"⟩] "2026-02-02" with
          date_extracted := "2026-01-01" } :=
  C8_output_deterministic_modulo_date (fun _ => ApiOutcome.skip) (fun _ => "uuid-a")
    (fun _ => "uuid-b") []
    ⟨"Best for Text on Images", "https://runware.ai/collections/best-for-text-on-images",
      "best_models.json"⟩ [⟨"id-1", "Name 1"⟩] "2026-01-01" "2026-02-02"
    (fun _ _ _ _ _ => rfl)

end Runware
